import Mathlib

/-!
Shallow embedding of the numerical core of `src/app1.py` (a console solver
for linear systems A·x = b built on numpy).

Modelling choices:
* Every numeric value handled by the program is an IEEE double, and every
  IEEE double is a rational number, so matrices, vectors and singular values
  are carried as rationals (`ℚ`).  The recorded residual norm is carried in
  `ℝ`, since the Euclidean norm of a rational vector is in general irrational.
* The numpy library primitives used by the code — `np.linalg.svd` (only its
  singular values are consumed), `np.linalg.solve` (which may raise
  `LinAlgError`, modelled as `Option`), `np.linalg.lstsq` and
  `np.linalg.norm` — are external to the repository.  They are modelled as an
  oracle record `NumpyOracle`; theorems constrain the oracle with the
  documented properties of those primitives (singular values sorted in
  descending order and nonnegative, `np.linalg.norm` computing the Euclidean
  norm, `np.linalg.lstsq` returning the minimum-norm least-squares solution).
* The repository functions `estado_matriz` and `resolver_sistema` are
  translated statement by statement; `resolver_sistema`'s `try/except
  LinAlgError` around `np.linalg.solve` becomes a `match` on the oracle's
  `Option` result, the `except: pass` falling through to the shared
  least-squares tail exactly as in the source.
-/

namespace App1

/-- `np.finfo(float).eps`: the machine epsilon of IEEE double precision,
exactly 2⁻⁵². -/
def machineEps : ℚ := 1 / 2 ^ 52

/-- Condition-number value: a finite ratio, or the `np.inf` sentinel produced
on line 81 of the source. -/
inductive Cond where
  | finite (c : ℚ)
  | infinite
deriving DecidableEq

/-- The dictionary returned by `estado_matriz`:
`{"m": m, "n": n, "rank": rango, "cond": cond, "singular": rango < min(m, n)}`. -/
structure Estado where
  m : ℕ
  n : ℕ
  rank : ℕ
  cond : Cond
  singular : Bool
deriving DecidableEq

/-- The numpy primitives used by the core, modelled as oracles:
`svdVals A` is the vector `s` of `np.linalg.svd(A)` (descending singular
values), `solveE A b` is `np.linalg.solve(A, b)` with `none` standing for a
raised `LinAlgError`, `lstsq A b` is the solution returned by
`np.linalg.lstsq(A, b, rcond=None)`, and `vnorm` is `np.linalg.norm`. -/
structure NumpyOracle where
  svdVals : List (List ℚ) → List ℚ
  solveE : List (List ℚ) → List ℚ → Option (List ℚ)
  lstsq : List (List ℚ) → List ℚ → List ℚ
  vnorm : List ℚ → ℝ

/-- Dot product of two rows, `sum(u_i * v_i)`. -/
def dot (u v : List ℚ) : ℚ := (List.zipWith (fun a c => a * c) u v).sum

/-- Matrix–vector product `A @ x` for a row-major matrix. -/
def matVec (A : List (List ℚ)) (x : List ℚ) : List ℚ := A.map (fun row => dot row x)

/-- Componentwise vector subtraction `u - v`. -/
def vsub (u v : List ℚ) : List ℚ := List.zipWith (fun a c => a - c) u v

/-- Sum of squared entries of a vector (the square of the Euclidean norm). -/
def normSq (v : List ℚ) : ℚ := (v.map (fun a => a * a)).sum

/-- The Euclidean norm ‖v‖₂ of a rational vector, as a real number.  This is
the independent mathematical definition the spec compares the recorded
residual against. -/
noncomputable def euclNorm (v : List ℚ) : ℝ := Real.sqrt ((normSq v : ℚ) : ℝ)

/-- `estado_matriz(A)` (source lines 76–82): runs the SVD, sets
`tol = max(m, n) * np.finfo(float).eps * (s[0] if s.size else 0.0)`,
`rango = (s > tol).sum()`,
`cond = s[0] / s[-1] if (s.size > 0 and s[-1] > 0) else np.inf`,
and returns the diagnostics dictionary. -/
def estado_matriz (o : NumpyOracle) (A : List (List ℚ)) : Estado :=
  let m := A.length
  let n := (A.headD []).length
  let s := o.svdVals A
  let tol : ℚ := ((max m n : ℕ) : ℚ) * machineEps * s.headD 0
  let rango := s.countP (fun v => decide (tol < v))
  let cond : Cond :=
    if 0 < s.length ∧ 0 < s.getLastD 0 then Cond.finite (s.headD 0 / s.getLastD 0)
    else Cond.infinite
  { m := m, n := n, rank := rango, cond := cond, singular := decide (rango < min m n) }

/-- The `info` dictionary of `resolver_sistema` after its `update` calls; the
source initialises the three fields to `None` and fills all of them on every
return path, hence the `Option` types. -/
structure Info where
  metodo : Option String
  mensaje : Option String
  residuo_norma2 : Option ℝ

/-- `resolver_sistema(A, b)` (source lines 85–102).  If `m == n` and
`est["rank"] == n` it attempts `np.linalg.solve`; a raised `LinAlgError`
(`none` from the oracle) falls through, by the source's `except ... pass`, to
the `np.linalg.lstsq` tail shared with the non-square / rank-deficient case.
Both return paths recompute `r = A @ x - b` from the solution being returned
and record `np.linalg.norm(r)`. -/
def resolver_sistema (o : NumpyOracle) (A : List (List ℚ)) (b : List ℚ) :
    List ℚ × Info :=
  if A.length = (A.headD []).length ∧
      (estado_matriz o A).rank = (A.headD []).length then
    match o.solveE A b with
    | some x =>
        (x, { metodo := some "solve", mensaje := some "Solución única",
              residuo_norma2 := some (o.vnorm (vsub (matVec A x) b)) })
    | none =>
        (o.lstsq A b,
          { metodo := some "lstsq", mensaje := some "Solución por mínimos cuadrados",
            residuo_norma2 := some (o.vnorm (vsub (matVec A (o.lstsq A b)) b)) })
  else
    (o.lstsq A b,
      { metodo := some "lstsq", mensaje := some "Solución por mínimos cuadrados",
        residuo_norma2 := some (o.vnorm (vsub (matVec A (o.lstsq A b)) b)) })

/-- Spec-side tolerance: `tol = max(m, n) × machine_epsilon × s₁` where `s₁`
is the LARGEST singular value (phrased via `foldr max 0`, independent of the
list's order). -/
def specTol (m n : ℕ) (s : List ℚ) : ℚ :=
  ((max m n : ℕ) : ℚ) * machineEps * s.foldr max 0

/-- Spec-side rank: the count of singular values strictly greater than
`specTol`. -/
def specRank (m n : ℕ) (s : List ℚ) : ℕ :=
  s.countP (fun v => decide (specTol m n s < v))

/-- Squared residual ‖A·x − b‖² of a candidate solution. -/
def residSq (A : List (List ℚ)) (b x : List ℚ) : ℚ := normSq (vsub (matVec A x) b)

/-- Documented behaviour of `np.linalg.lstsq(A, b, rcond=None)`: `x` has one
entry per column of `A`, minimises the squared residual among vectors of that
length, and has minimal squared norm among the minimisers. -/
def IsMinNormLstsq (A : List (List ℚ)) (b x : List ℚ) : Prop :=
  x.length = (A.headD []).length ∧
  (∀ y, y.length = (A.headD []).length → residSq A b x ≤ residSq A b y) ∧
  (∀ y, y.length = (A.headD []).length → residSq A b y = residSq A b x →
    normSq x ≤ normSq y)

/-- The caller-held state visible to `resolver_sistema`: the arrays `A` and
`b` it receives (the menu's current matrix and right-hand side). -/
structure SolverEnv where
  A : List (List ℚ)
  b : List ℚ
deriving DecidableEq

/-- State-passing reading of `resolver_sistema`: the body of source lines
85–102 re-traced with the inputs held in an explicit environment.  Every
statement of the source only READS `A` and `b` (`np.linalg.svd`,
`np.linalg.solve`, `np.linalg.lstsq`, `@`, `-` and `np.linalg.norm` all leave
their arguments untouched), so each return path hands back the environment as
it stood on entry, paired with the returned value. -/
def resolver_sistemaS (o : NumpyOracle) (env : SolverEnv) :
    SolverEnv × (List ℚ × Info) :=
  if env.A.length = (env.A.headD []).length ∧
      (estado_matriz o env.A).rank = (env.A.headD []).length then
    match o.solveE env.A env.b with
    | some x =>
        (env, (x, { metodo := some "solve", mensaje := some "Solución única",
                    residuo_norma2 :=
                      some (o.vnorm (vsub (matVec env.A x) env.b)) }))
    | none =>
        (env, (o.lstsq env.A env.b,
          { metodo := some "lstsq", mensaje := some "Solución por mínimos cuadrados",
            residuo_norma2 :=
              some (o.vnorm (vsub (matVec env.A (o.lstsq env.A env.b)) env.b)) }))
  else
    (env, (o.lstsq env.A env.b,
      { metodo := some "lstsq", mensaje := some "Solución por mínimos cuadrados",
        residuo_norma2 :=
          some (o.vnorm (vsub (matVec env.A (o.lstsq env.A env.b)) env.b)) }))

/-! ### Helper lemmas on sorted singular-value lists and norms -/

/-- Folding `max` over a list bounded by a nonnegative `a` stays below `a`. -/
lemma foldr_max_le (a : ℚ) (t : List ℚ) (h0 : 0 ≤ a) (h : ∀ x ∈ t, x ≤ a) :
    t.foldr max 0 ≤ a := by
  induction t with
  | nil => simpa using h0
  | cons c t ih =>
      simp only [List.foldr_cons]
      exact max_le (h c (by simp)) (ih (fun x hx => h x (List.mem_cons_of_mem _ hx)))

/-- On a descending list of nonnegative values, the head is the maximum. -/
lemma headD_eq_foldr_max (s : List ℚ) (hs : s.Sorted (· ≥ ·))
    (h0 : ∀ v ∈ s, 0 ≤ v) : s.headD 0 = s.foldr max 0 := by
  cases s with
  | nil => rfl
  | cons a t =>
      obtain ⟨ha, -⟩ := List.sorted_cons.mp hs
      have h1 : t.foldr max 0 ≤ a :=
        foldr_max_le a t (h0 a (by simp)) (fun x hx => ha x hx)
      simp [max_eq_left h1]

/-- On a descending list, the last element is a lower bound for every member. -/
lemma getLastD_le_of_sorted (s : List ℚ) (hs : s.Sorted (· ≥ ·)) :
    ∀ v ∈ s, s.getLastD 0 ≤ v := by
  induction s with
  | nil => intro v hv; simp at hv
  | cons a t ih =>
      intro v hv
      obtain ⟨ha, ht⟩ := List.sorted_cons.mp hs
      rcases List.mem_cons.mp hv with rfl | hvt
      · cases t with
        | nil => simp
        | cons c u =>
            have hmem : (c :: u).getLastD 0 ∈ c :: u := by
              rw [List.getLastD_eq_getLast?, List.getLast?_eq_getLast _ (by simp)]
              simp [List.getLast_mem]
            simpa using ha _ hmem
      · cases t with
        | nil => simp at hvt
        | cons c u => simpa using ih ht v hvt

/-- On a descending list, the head is an upper bound for every member. -/
lemma le_headD_of_sorted (s : List ℚ) (hs : s.Sorted (· ≥ ·)) :
    ∀ v ∈ s, v ≤ s.headD 0 := by
  cases s with
  | nil => intro v hv; simp at hv
  | cons a t =>
      intro v hv
      obtain ⟨ha, -⟩ := List.sorted_cons.mp hs
      rcases List.mem_cons.mp hv with rfl | hvt
      · simp
      · simpa using ha v hvt

/-- A sum of squared entries is nonnegative. -/
lemma normSq_nonneg (v : List ℚ) : 0 ≤ normSq v := by
  refine List.sum_nonneg ?_
  intro x hx
  obtain ⟨a, -, rfl⟩ := List.mem_map.mp hx
  exact mul_self_nonneg a

/-- Subtracting a vector from itself yields a vector of zero squared norm. -/
lemma normSq_vsub_self (v : List ℚ) : normSq (vsub v v) = 0 := by
  induction v with
  | nil => rfl
  | cons a t ih =>
      rw [show vsub (a :: t) (a :: t) = (a - a) :: vsub t t from rfl]
      simpa [normSq] using ih

/-- Vectors of equal length whose difference has zero squared norm are equal. -/
lemma eq_of_normSq_vsub_eq_zero :
    ∀ u v : List ℚ, u.length = v.length → normSq (vsub u v) = 0 → u = v := by
  intro u
  induction u with
  | nil =>
      intro v hlen _
      exact (List.length_eq_zero.mp hlen.symm).symm
  | cons a t ih =>
      intro v hlen h
      cases v with
      | nil => simp at hlen
      | cons c w =>
          have hsum : (a - c) * (a - c) + normSq (vsub t w) = 0 := by
            simpa [vsub, normSq] using h
          have h1 : 0 ≤ (a - c) * (a - c) := mul_self_nonneg _
          have h2 : 0 ≤ normSq (vsub t w) := normSq_nonneg _
          have hz1 : (a - c) * (a - c) = 0 := le_antisymm (by linarith) h1
          have hz2 : normSq (vsub t w) = 0 := le_antisymm (by linarith) h2
          have hac : a = c := by
            have := mul_self_eq_zero.mp hz1
            linarith
          have hw : t = w := ih w (by simpa using hlen) hz2
          rw [hac, hw]

/-- The `m` field of the diagnostics is the row count. -/
lemma estado_m (o : NumpyOracle) (A : List (List ℚ)) :
    (estado_matriz o A).m = A.length := rfl

/-- The `n` field of the diagnostics is the column count. -/
lemma estado_n (o : NumpyOracle) (A : List (List ℚ)) :
    (estado_matriz o A).n = (A.headD []).length := rfl

/-- The `singular` flag is set exactly when the computed rank is below
`min(m, n)`. -/
lemma estado_singular_iff (o : NumpyOracle) (A : List (List ℚ)) :
    (estado_matriz o A).singular = true ↔
      (estado_matriz o A).rank < min A.length (A.headD []).length := by
  simp [estado_matriz]

/-- A predicate rejecting 0 counts nothing on an all-zero list. -/
lemma countP_replicate_zero (p : ℚ → Bool) (hp : p 0 = false) (n : ℕ) :
    (List.replicate n (0 : ℚ)).countP p = 0 := by
  induction n with
  | zero => rfl
  | succ j ih => simp [List.replicate_succ, List.countP_cons, hp, ih]

/-- The last element of an all-zero list defaults to 0. -/
lemma getLastD_replicate_zero (n : ℕ) :
    (List.replicate n (0 : ℚ)).getLastD 0 = 0 := by
  induction n with
  | zero => rfl
  | succ j ih =>
      rw [List.replicate_succ, List.getLastD_cons]
      exact ih

/-! ### Concrete oracles used to instantiate the theorems -/

/-- Oracle on which the exact solve succeeds (`np.linalg.solve` returns
`[1]`) and the SVD reports the single singular value 1. -/
noncomputable def oracleA : NumpyOracle where
  svdVals := fun _ => [1]
  solveE := fun _ _ => some [1]
  lstsq := fun _ _ => [1]
  vnorm := euclNorm

/-- Oracle on which `np.linalg.solve` raises `LinAlgError` (`none`). -/
noncomputable def oracleB : NumpyOracle where
  svdVals := fun _ => [1]
  solveE := fun _ _ => none
  lstsq := fun _ _ => [1]
  vnorm := euclNorm

/-- Oracle matching the 1×2 system `[[1,1]]·x = [2]`: `np.linalg.lstsq`
returns the minimum-norm solution `[1, 1]`. -/
noncomputable def oracleG : NumpyOracle where
  svdVals := fun _ => [1]
  solveE := fun _ _ => none
  lstsq := fun _ _ => [1, 1]
  vnorm := euclNorm

/-- Oracle matching the 1×1 zero matrix: its only singular value is 0. -/
noncomputable def oracleZ : NumpyOracle where
  svdVals := fun _ => [0]
  solveE := fun _ _ => none
  lstsq := fun _ _ => [0]
  vnorm := euclNorm

/-! ### The claims -/

/-- C1: for every matrix and vector accepted by the boundary contract, the
recorded `residuo_norma2` equals the Euclidean norm of `A·x − b` computed
from the solution being returned, on the exact branch and on both
least-squares paths alike (the source recomputes `r = A @ x - b` from the
returned `x` on every path).  The hypothesis `hnorm` states the documented
behaviour of `np.linalg.norm`. -/
theorem c1_residual_norm_invariant (o : NumpyOracle) (A : List (List ℚ))
    (b : List ℚ) (hnorm : ∀ v, o.vnorm v = euclNorm v)
    (hshape : b.length = A.length) :
    (resolver_sistema o A b).2.residuo_norma2 =
      some (euclNorm (vsub (matVec A ((resolver_sistema o A b).1)) b)) := by
  unfold resolver_sistema
  split
  · rcases h : o.solveE A b with _ | x <;> simp [h, hnorm]
  · simp [hnorm]

/-- Witness for C1 at `A = [[1]]`, `b = [1]` with `oracleA`. -/
theorem c1_residual_norm_invariant_holds :
    (resolver_sistema oracleA [[(1 : ℚ)]] [1]).2.residuo_norma2 =
      some (euclNorm (vsub (matVec [[(1 : ℚ)]]
        ((resolver_sistema oracleA [[(1 : ℚ)]] [1]).1)) [1])) :=
  c1_residual_norm_invariant oracleA [[(1 : ℚ)]] [1] (fun _ => rfl) rfl

/-- C2: the branch order of `resolver_sistema`.  When `m = n`, the computed
rank equals `n` and the exact solve succeeds, the result is the exact
solution tagged `"solve"` / `"Solución única"`; when the square-and-full-rank
test fails, and likewise when the test passes but the exact solve raises, the
result is the least-squares solution tagged `"lstsq"` / `"Solución por
mínimos cuadrados"`. -/
theorem c2_branch_order (o : NumpyOracle) (A : List (List ℚ)) (b : List ℚ) :
    (∀ x, A.length = (A.headD []).length →
        (estado_matriz o A).rank = (A.headD []).length →
        o.solveE A b = some x →
        resolver_sistema o A b =
          (x, { metodo := some "solve", mensaje := some "Solución única",
                residuo_norma2 := some (o.vnorm (vsub (matVec A x) b)) })) ∧
    (¬(A.length = (A.headD []).length ∧
        (estado_matriz o A).rank = (A.headD []).length) →
        resolver_sistema o A b =
          (o.lstsq A b,
            { metodo := some "lstsq",
              mensaje := some "Solución por mínimos cuadrados",
              residuo_norma2 :=
                some (o.vnorm (vsub (matVec A (o.lstsq A b)) b)) })) ∧
    (A.length = (A.headD []).length →
        (estado_matriz o A).rank = (A.headD []).length →
        o.solveE A b = none →
        resolver_sistema o A b =
          (o.lstsq A b,
            { metodo := some "lstsq",
              mensaje := some "Solución por mínimos cuadrados",
              residuo_norma2 :=
                some (o.vnorm (vsub (matVec A (o.lstsq A b)) b)) })) := by
  refine ⟨?_, ?_, ?_⟩
  · intro x h1 h2 h3
    unfold resolver_sistema
    rw [if_pos ⟨h1, h2⟩, h3]
  · intro h
    unfold resolver_sistema
    rw [if_neg h]
  · intro h1 h2 h3
    unfold resolver_sistema
    rw [if_pos ⟨h1, h2⟩, h3]

/-- Witness for C2: on the square full-rank system `[[2]]·x = [3]` with a
succeeding exact solve, the result is the exact branch. -/
theorem c2_branch_order_holds :
    resolver_sistema oracleA [[(2 : ℚ)]] [3] =
      ([1], { metodo := some "solve", mensaje := some "Solución única",
              residuo_norma2 :=
                some (oracleA.vnorm (vsub (matVec [[(2 : ℚ)]] [1]) [3])) }) :=
  (c2_branch_order oracleA [[(2 : ℚ)]] [3]).1 [1] rfl
    (by simp [estado_matriz, oracleA, machineEps, List.countP, List.countP.go]
        norm_num)
    rfl

/-- C4: when the square-and-full-rank test passes but `np.linalg.solve`
raises `LinAlgError`, the failure is not propagated: the function falls
through to the least-squares tail and still returns a complete result tagged
`"lstsq"`. -/
theorem c4_fallback_on_failed_solve (o : NumpyOracle) (A : List (List ℚ))
    (b : List ℚ) (h1 : A.length = (A.headD []).length)
    (h2 : (estado_matriz o A).rank = (A.headD []).length)
    (h3 : o.solveE A b = none) :
    resolver_sistema o A b =
      (o.lstsq A b,
        { metodo := some "lstsq", mensaje := some "Solución por mínimos cuadrados",
          residuo_norma2 := some (o.vnorm (vsub (matVec A (o.lstsq A b)) b)) }) := by
  unfold resolver_sistema
  rw [if_pos ⟨h1, h2⟩, h3]

/-- Witness for C4: on `[[2]]·x = [3]` with an oracle whose exact solve
raises, the least-squares result is returned. -/
theorem c4_fallback_on_failed_solve_holds :
    resolver_sistema oracleB [[(2 : ℚ)]] [3] =
      ([1], { metodo := some "lstsq", mensaje := some "Solución por mínimos cuadrados",
              residuo_norma2 :=
                some (oracleB.vnorm (vsub (matVec [[(2 : ℚ)]] [1]) [3])) }) :=
  c4_fallback_on_failed_solve oracleB [[(2 : ℚ)]] [3] rfl
    (by simp [estado_matriz, oracleB, machineEps, List.countP, List.countP.go]
        norm_num)
    rfl

/-- C5: `resolver_sistema` is a total function and every return path fills
all three fields of the `info` dictionary (`metodo`, `mensaje`,
`residuo_norma2` are all `some _`), for every input satisfying the shape
precondition. -/
theorem c5_always_complete_result (o : NumpyOracle) (A : List (List ℚ))
    (b : List ℚ) (hshape : b.length = A.length) :
    (resolver_sistema o A b).2.metodo.isSome = true ∧
    (resolver_sistema o A b).2.mensaje.isSome = true ∧
    (resolver_sistema o A b).2.residuo_norma2.isSome = true := by
  unfold resolver_sistema
  split
  · rcases h : o.solveE A b with _ | x <;> simp [h]
  · simp

/-- Witness for C5 at `A = [[1]]`, `b = [1]`. -/
theorem c5_always_complete_result_holds :
    (resolver_sistema oracleA [[(1 : ℚ)]] [1]).2.metodo.isSome = true ∧
    (resolver_sistema oracleA [[(1 : ℚ)]] [1]).2.mensaje.isSome = true ∧
    (resolver_sistema oracleA [[(1 : ℚ)]] [1]).2.residuo_norma2.isSome = true :=
  c5_always_complete_result oracleA [[(1 : ℚ)]] [1] rfl

/-- C9: the solver does not modify its inputs.  Re-tracing the body with the
caller's arrays held in an explicit environment, every return path hands back
the environment exactly as received, and the returned value coincides with
the pure reading of `resolver_sistema`. -/
theorem c9_inputs_unchanged (o : NumpyOracle) (env : SolverEnv) :
    (resolver_sistemaS o env).1 = env ∧
    (resolver_sistemaS o env).2 = resolver_sistema o env.A env.b := by
  unfold resolver_sistemaS resolver_sistema
  split
  · rcases h : o.solveE env.A env.b with _ | x <;> simp [h]
  · simp

/-- C3: on singular values sorted in descending order (as `np.linalg.svd`
returns them) and nonnegative, the computed rank is the count of singular
values strictly greater than `tol = max(m, n) × machine_epsilon × s₁`, where
`s₁` is the largest singular value; the tolerance collapses to 0 when
`s₁ = 0`; and the `singular` (rank-deficiency) flag is set exactly when that
count is below `min(m, n)`. -/
theorem c3_rank_and_deficiency (o : NumpyOracle) (A : List (List ℚ))
    (hm : 1 ≤ A.length) (hn : 1 ≤ (A.headD []).length)
    (hsort : (o.svdVals A).Sorted (· ≥ ·))
    (hpos : ∀ v ∈ o.svdVals A, 0 ≤ v) :
    (estado_matriz o A).rank =
      specRank A.length (A.headD []).length (o.svdVals A) ∧
    ((estado_matriz o A).singular = true ↔
      (estado_matriz o A).rank < min A.length (A.headD []).length) ∧
    ((o.svdVals A).foldr max 0 = 0 →
      specTol A.length (A.headD []).length (o.svdVals A) = 0) := by
  have hmax := headD_eq_foldr_max (o.svdVals A) hsort hpos
  refine ⟨?_, estado_singular_iff o A, ?_⟩
  · simp only [estado_matriz, specRank, specTol, hmax]
  · intro h
    simp [specTol, h]

/-- Witness for C3 on the 1×1 matrix `[[2]]` with singular values `[1]`. -/
theorem c3_rank_and_deficiency_holds :
    (estado_matriz oracleA [[(2 : ℚ)]]).rank =
      specRank 1 1 (oracleA.svdVals [[(2 : ℚ)]]) :=
  (c3_rank_and_deficiency oracleA [[(2 : ℚ)]] (by norm_num) (by norm_num)
    (by simp [oracleA])
    (by intro v hv; simp [oracleA] at hv; simp [hv])).1

/-- C6: on a nonempty descending singular-value list, the last entry is the
smallest and the head the largest; the condition number is the finite ratio
largest/smallest when the smallest singular value is strictly positive, and
the `np.inf` sentinel (a value, not an exception) when it is zero. -/
theorem c6_condition_number (o : NumpyOracle) (A : List (List ℚ))
    (hne : o.svdVals A ≠ []) (hsort : (o.svdVals A).Sorted (· ≥ ·)) :
    (∀ v ∈ o.svdVals A, (o.svdVals A).getLastD 0 ≤ v) ∧
    (∀ v ∈ o.svdVals A, v ≤ (o.svdVals A).headD 0) ∧
    (0 < (o.svdVals A).getLastD 0 →
      (estado_matriz o A).cond =
        Cond.finite ((o.svdVals A).headD 0 / (o.svdVals A).getLastD 0)) ∧
    ((o.svdVals A).getLastD 0 = 0 →
      (estado_matriz o A).cond = Cond.infinite) := by
  refine ⟨getLastD_le_of_sorted _ hsort, le_headD_of_sorted _ hsort, ?_, ?_⟩
  · intro h
    have hlen : 0 < (o.svdVals A).length := List.length_pos.mpr hne
    rw [List.getLastD_eq_getLast?] at h
    simp [estado_matriz, hlen, h, List.getLastD_eq_getLast?]
  · intro h
    rw [List.getLastD_eq_getLast?] at h
    simp [estado_matriz, h, List.getLastD_eq_getLast?]

/-- Witness for C6 on `[[2]]` with singular values `[1]`: the finite ratio
branch applies. -/
theorem c6_condition_number_holds :
    (estado_matriz oracleA [[(2 : ℚ)]]).cond =
      Cond.finite ((oracleA.svdVals [[(2 : ℚ)]]).headD 0 /
        (oracleA.svdVals [[(2 : ℚ)]]).getLastD 0) :=
  (c6_condition_number oracleA [[(2 : ℚ)]] (by simp [oracleA])
    (by simp [oracleA])).2.2.1 (by norm_num [oracleA])

/-- C8: for a square matrix whose smallest singular value is strictly
positive (full rank), the condition number is a finite value that is at
least 1. -/
theorem c8_full_rank_cond_ge_one (o : NumpyOracle) (A : List (List ℚ))
    (hsq : A.length = (A.headD []).length)
    (hne : o.svdVals A ≠ []) (hsort : (o.svdVals A).Sorted (· ≥ ·))
    (hpos : 0 < (o.svdVals A).getLastD 0) :
    ∃ c, (estado_matriz o A).cond = Cond.finite c ∧ 1 ≤ c := by
  have hlen : 0 < (o.svdVals A).length := List.length_pos.mpr hne
  have hmem : (o.svdVals A).headD 0 ∈ o.svdVals A := by
    cases hs : o.svdVals A with
    | nil => exact absurd hs hne
    | cons a t => simp
  have hle : (o.svdVals A).getLastD 0 ≤ (o.svdVals A).headD 0 :=
    getLastD_le_of_sorted _ hsort _ hmem
  refine ⟨(o.svdVals A).headD 0 / (o.svdVals A).getLastD 0, ?_, ?_⟩
  · have hpos' := hpos
    rw [List.getLastD_eq_getLast?] at hpos'
    simp [estado_matriz, hlen, hpos', List.getLastD_eq_getLast?]
  · exact (one_le_div hpos).mpr hle

/-- Witness for C8 on `[[2]]` with singular values `[1]`. -/
theorem c8_full_rank_cond_ge_one_holds :
    ∃ c, (estado_matriz oracleA [[(2 : ℚ)]]).cond = Cond.finite c ∧ 1 ≤ c :=
  c8_full_rank_cond_ge_one oracleA [[(2 : ℚ)]] rfl (by simp [oracleA])
    (by simp [oracleA]) (by norm_num [oracleA])

/-- C10: on an all-zero matrix (all singular values are 0, the SVD of the
zero matrix) with `m, n ≥ 1`, the diagnostics complete normally and report
rank 0, the infinite-condition sentinel, and a set rank-deficiency flag. -/
theorem c10_zero_matrix_diagnostics (o : NumpyOracle) (A : List (List ℚ))
    (hm : 1 ≤ A.length) (hn : 1 ≤ (A.headD []).length)
    (hzero : o.svdVals A =
      List.replicate (min A.length (A.headD []).length) 0) :
    (estado_matriz o A).rank = 0 ∧
    (estado_matriz o A).cond = Cond.infinite ∧
    (estado_matriz o A).singular = true := by
  have hk : 0 < min A.length (A.headD []).length := lt_min hm hn
  obtain ⟨j, hj⟩ : ∃ j, min A.length (A.headD []).length = j + 1 :=
    ⟨(min A.length (A.headD []).length) - 1, by omega⟩
  have hzero' : o.svdVals A = 0 :: List.replicate j 0 := by
    rw [hzero, hj, List.replicate_succ]
  have hzcount : (List.replicate j (0 : ℚ)).countP
      (fun v => decide ((0 : ℚ) < v)) = 0 :=
    countP_replicate_zero (fun v => decide ((0 : ℚ) < v)) (by simp) j
  have hrank : (estado_matriz o A).rank = 0 := by
    simp only [estado_matriz, hzero']
    simp [List.countP_cons, hzcount]
  have hlast : (o.svdVals A).getLastD 0 = 0 := by
    rw [hzero]
    exact getLastD_replicate_zero _
  refine ⟨hrank, ?_, ?_⟩
  · rw [List.getLastD_eq_getLast?] at hlast
    simp [estado_matriz, hlast, List.getLastD_eq_getLast?]
  · rw [estado_singular_iff, hrank]
    exact hk

/-- Witness for C10 on the 1×1 zero matrix `[[0]]`. -/
theorem c10_zero_matrix_diagnostics_holds :
    (estado_matriz oracleZ [[(0 : ℚ)]]).rank = 0 ∧
    (estado_matriz oracleZ [[(0 : ℚ)]]).cond = Cond.infinite ∧
    (estado_matriz oracleZ [[(0 : ℚ)]]).singular = true :=
  c10_zero_matrix_diagnostics oracleZ [[(0 : ℚ)]] (by norm_num) (by norm_num) rfl

/-- C7: a consistent underdetermined system (m < n) takes the least-squares
branch, and — given the documented behaviour of `np.linalg.lstsq` — the
returned solution solves the system exactly, has minimal norm among all exact
solutions, and the recorded residual norm is exactly 0. -/
theorem c7_underdetermined_consistent (o : NumpyOracle) (A : List (List ℚ))
    (b : List ℚ) (hshape : b.length = A.length)
    (hmn : A.length < (A.headD []).length)
    (hrank : (estado_matriz o A).rank = A.length)
    (hcons : ∃ y, y.length = (A.headD []).length ∧ matVec A y = b)
    (hls : IsMinNormLstsq A b (o.lstsq A b))
    (hnorm : ∀ v, o.vnorm v = euclNorm v) :
    (resolver_sistema o A b).2.metodo = some "lstsq" ∧
    (resolver_sistema o A b).1 = o.lstsq A b ∧
    matVec A ((resolver_sistema o A b).1) = b ∧
    (∀ y, y.length = (A.headD []).length → matVec A y = b →
      normSq ((resolver_sistema o A b).1) ≤ normSq y) ∧
    (resolver_sistema o A b).2.residuo_norma2 = some 0 := by
  have hne : ¬(A.length = (A.headD []).length ∧
      (estado_matriz o A).rank = (A.headD []).length) := by
    rintro ⟨h, -⟩
    omega
  have hres : resolver_sistema o A b =
      (o.lstsq A b,
        { metodo := some "lstsq", mensaje := some "Solución por mínimos cuadrados",
          residuo_norma2 :=
            some (o.vnorm (vsub (matVec A (o.lstsq A b)) b)) }) := by
    unfold resolver_sistema
    rw [if_neg hne]
  obtain ⟨y₀, hy₀len, hy₀⟩ := hcons
  have h0 : residSq A b y₀ = 0 := by
    simp [residSq, hy₀, normSq_vsub_self]
  have hXres : residSq A b (o.lstsq A b) = 0 :=
    le_antisymm (h0 ▸ hls.2.1 y₀ hy₀len) (normSq_nonneg _)
  have hAX : matVec A (o.lstsq A b) = b := by
    refine eq_of_normSq_vsub_eq_zero _ _ ?_ hXres
    simp [matVec, hshape]
  refine ⟨by rw [hres], by rw [hres], by rw [hres]; exact hAX, ?_, ?_⟩
  · intro y hylen hy
    rw [hres]
    refine hls.2.2 y hylen ?_
    rw [hXres]
    simp [residSq, hy, normSq_vsub_self]
  · rw [hres]
    simp only [hnorm]
    rw [hAX]
    simp [euclNorm, normSq_vsub_self]

/-- `[1, 1]` is the minimum-norm least-squares solution of `[[1,1]]·x = [2]`
(the claim's worked example). -/
lemma minNormLstsq_example : IsMinNormLstsq [[(1 : ℚ), 1]] [2] [1, 1] := by
  have hres0 : residSq [[(1 : ℚ), 1]] [2] [1, 1] = 0 := by
    simp [residSq, matVec, dot, vsub, normSq]
    norm_num
  refine ⟨rfl, ?_, ?_⟩
  · intro y hy
    rw [hres0]
    exact normSq_nonneg _
  · intro y hy hres
    rw [hres0] at hres
    obtain ⟨u, v, rfl⟩ := List.length_eq_two.mp (by simpa using hy)
    have h2 : (u + v - 2) * (u + v - 2) = 0 := by
      have := hres
      simp [residSq, matVec, dot, vsub, normSq] at this
      nlinarith [this]
    have huv : u + v = 2 := by
      have := mul_self_eq_zero.mp h2
      linarith
    have hgoal : (1 : ℚ) + 1 ≤ u * u + v * v := by
      nlinarith [sq_nonneg (u - 1), sq_nonneg (v - 1)]
    simpa [normSq] using hgoal

/-- Witness for C7 on `[[1,1]]·x = [2]`: least squares, solution `[1, 1]`,
zero residual. -/
theorem c7_underdetermined_consistent_holds :
    (resolver_sistema oracleG [[(1 : ℚ), 1]] [2]).2.metodo = some "lstsq" ∧
    (resolver_sistema oracleG [[(1 : ℚ), 1]] [2]).1 = [1, 1] ∧
    matVec [[(1 : ℚ), 1]] ((resolver_sistema oracleG [[(1 : ℚ), 1]] [2]).1) = [2] ∧
    (resolver_sistema oracleG [[(1 : ℚ), 1]] [2]).2.residuo_norma2 = some 0 := by
  have h := c7_underdetermined_consistent oracleG [[(1 : ℚ), 1]] [2] rfl
    (by norm_num)
    (by simp [estado_matriz, oracleG, machineEps, List.countP, List.countP.go]
        norm_num)
    ⟨[1, 1], rfl, by simp [matVec, dot]; norm_num⟩
    minNormLstsq_example
    (fun _ => rfl)
  exact ⟨h.1, h.2.1, h.2.2.1, h.2.2.2.2⟩

end App1
